import Mathlib

/-!
# Verification of the VGN grasp data-generation pipeline

Shallow embedding of `src/vgn/src/vgn/data_generation.py`: the candidate
sampler (`sample_grasp_point`), the rotation-sweep evaluator
(`evaluate_grasp_point`, including the scipy `find_peaks`-based peak
selection), the class-balanced scene sampling loop (`generate_samples`),
and the voxel-label serializer (`store_sample`).

Modelling conventions:
* Geometry is over `ℚ` (the Python code uses IEEE doubles; all claims here
  are exact algebraic/ordering facts, so exact rationals model them).
* Rotations are unit quaternions in scipy's `[x, y, z, w]` layout; `Quat.mul`
  is scipy's composition (`(p * q).as_quat()` is the Hamilton product).
* `Label` outcome codes: `vgn/grasp.py` is not among the sources, so the
  `Label` enum is modelled from the spec — outcome codes are naturals, one
  designated code `s` (a parameter below) is the success variant, all other
  (smaller) codes are distinct failure modes, and success is the
  maximal-coded variant (spec §3, §9).  Definitions take the success code
  `s` as an explicit parameter wherever the code mentions `Label.SUCCESS`.
* The physics simulation and rendering are external collaborators; a
  rotation sweep is represented by the sequences `outcomes` / `widths` it
  returns, and yaw rotations `Rotation.from_euler("z", yaws[i])` by an
  abstract `yawRot : Nat → Quat`.
-/

/-- 3-vectors over `ℚ` (numpy length-3 float arrays). -/
structure Vec3 where
  x : ℚ
  y : ℚ
  z : ℚ
deriving DecidableEq

namespace Vec3

def add (u v : Vec3) : Vec3 := ⟨u.x + v.x, u.y + v.y, u.z + v.z⟩

def smul (c : ℚ) (v : Vec3) : Vec3 := ⟨c * v.x, c * v.y, c * v.z⟩

def neg (v : Vec3) : Vec3 := ⟨-v.x, -v.y, -v.z⟩

/-- `np.dot` for 3-vectors. -/
def dot (u v : Vec3) : ℚ := u.x * v.x + u.y * v.y + u.z * v.z

/-- `np.cross` for 3-vectors. -/
def cross (u v : Vec3) : Vec3 :=
  ⟨u.y * v.z - u.z * v.y, u.z * v.x - u.x * v.z, u.x * v.y - u.y * v.x⟩

def normSq (v : Vec3) : ℚ := dot v v

end Vec3

/-- Canonical X axis (`np.r_[1.0, 0.0, 0.0]`). -/
def e1 : Vec3 := ⟨1, 0, 0⟩

/-- Canonical Y axis (`np.r_[0.0, 1.0, 0.0]`). -/
def e2 : Vec3 := ⟨0, 1, 0⟩

/-- Quaternions in scipy's `[x, y, z, w]` (scalar-last) layout. -/
structure Quat where
  x : ℚ
  y : ℚ
  z : ℚ
  w : ℚ
deriving DecidableEq

namespace Quat

/-- scipy `Rotation` composition `p * q` on quaternion representations
(the Hamilton product, scalar-last). -/
def mul (p q : Quat) : Quat :=
  ⟨p.w * q.x + q.w * p.x + (p.y * q.z - p.z * q.y),
   p.w * q.y + q.w * p.y + (p.z * q.x - p.x * q.z),
   p.w * q.z + q.w * p.z + (p.x * q.y - p.y * q.x),
   p.w * q.w - (p.x * q.x + p.y * q.y + p.z * q.z)⟩

def neg (q : Quat) : Quat := ⟨-q.x, -q.y, -q.z, -q.w⟩

def normSq (q : Quat) : ℚ := q.x * q.x + q.y * q.y + q.z * q.z + q.w * q.w

/-- `Rotation.identity()` as a quaternion. -/
protected def id : Quat := ⟨0, 0, 0, 1⟩

end Quat

/-- `Rotation.from_rotvec(np.pi * np.r_[0.0, 0.0, 1.0])` — the 180° rotation
about the world Z axis.  Its quaternion is `(sin(π/2)·e_z, cos(π/2)) = (0,0,1,0)`. -/
def Rz : Quat := ⟨0, 0, 1, 0⟩

/-- A rigid transform (`vgn.utils.transform.Transform`): rotation plus translation. -/
structure Transform where
  rotation : Quat
  translation : Vec3
deriving DecidableEq

/-- A grasp (`vgn.grasp.Grasp`): a pose and a gripper opening width. -/
structure Grasp where
  pose : Transform
  width : ℚ
deriving DecidableEq

/-! ## Candidate Sampler (`sample_grasp_point`, lines 84–97)

The two random draws (`np.random.randint(len(points))` and
`np.random.uniform(-eps*finger_depth, (1+eps)*finger_depth)`) are passed in
as the parameters `idx` and `grasp_depth`; `eps = 0.2`. -/

def sample_grasp_point (points normals : List Vec3) (finger_depth grasp_depth : ℚ)
    (idx : Nat) : Option (Vec3 × Vec3) :=
  match points.get? idx, normals.get? idx with
  | some point, some normal =>
      some (Vec3.add point (Vec3.smul (finger_depth - grasp_depth) normal), normal)
  | _, _ => none

/-! ## Grasp frame construction (`evaluate_grasp_point`, lines 100–108)

`np.isclose(np.abs(np.dot(x_axis, z_axis)), 1.0, 1e-4)` is
`| |d| - 1 | ≤ atol + rtol·|1.0|` with the default `atol = 1e-8` and the
positional `rtol = 1e-4`, i.e. tolerance `10001 / 10^8`. -/

def frame_tol : ℚ := 10001 / 100000000

/-- Lines 103–105: the provisional reference axis — canonical X, replaced by
canonical Y when numerically parallel to the approach axis `-normal`. -/
def frame_ref_axis (normal : Vec3) : Vec3 :=
  if |(|Vec3.dot e1 (Vec3.neg normal)|) - 1| ≤ frame_tol then e2 else e1

/-- Lines 102–107: approach axis `z = -normal`; reference axis `x₀` from
`frame_ref_axis`; then `y = z × x₀` and `x = y × z`.  Returns the three
matrix columns `(x_axis, y_axis, z_axis)` that the code passes to
`Rotation.from_dcm`. -/
def grasp_frame (normal : Vec3) : Vec3 × Vec3 × Vec3 :=
  (Vec3.cross (Vec3.cross (Vec3.neg normal) (frame_ref_axis normal)) (Vec3.neg normal),
   Vec3.cross (Vec3.neg normal) (frame_ref_axis normal),
   Vec3.neg normal)

/-! ## Peak detection (`evaluate_grasp_point`, lines 121–129)

The code calls `scipy.signal.find_peaks(x=np.r_[0, successes, 0], height=1,
width=1)` on the 0/1 success-indicator padded with a `0` sentinel at both
ends.  scipy's `_local_maxima_1d` scans indices `1 .. n-2`; on a rising edge
it walks to the end of the plateau of equal values and, if the next sample is
strictly smaller (and inside the array), reports the plateau midpoint
`(left_edge + right_edge) // 2`.  `peaksAux` below is that scan as a state
machine over the remaining list: `prev` is the previous sample, `i` the index
of the head, and the `Option Nat` state an open plateau's left edge.

For a 0/1 signal the evaluation height used by `peak_widths`
(`rel_height = 0.5`, prominence 1) is `0.5`, and the interpolated crossings
sit half a sample outside the plateau, so the reported width is exactly the
plateau length; the `height=1` / `width=1` filters keep every reported
plateau of ones.  The second component of each emitted pair is therefore the
plateau length. -/

def peaksAux : List Nat → Nat → Nat → Option Nat → List (Nat × Nat)
  | [], _, _, _ => []
  | x :: rest, prev, i, none =>
      if prev < x then peaksAux rest x (i + 1) (some i)
      else peaksAux rest x (i + 1) none
  | x :: rest, prev, i, some a =>
      if x < prev then ((a + (i - 1)) / 2, i - a) :: peaksAux rest x (i + 1) none
      else if prev < x then peaksAux rest x (i + 1) (some i)
      else peaksAux rest x (i + 1) (some a)

/-- `scipy.signal.find_peaks(x, height=1, width=1)` for 0/1-valued signals:
the list of `(plateau midpoint, plateau length)` pairs. -/
def find_peaks : List Nat → List (Nat × Nat)
  | [] => []
  | x :: rest => peaksAux rest x 1 none

/-- `np.max` over a list of outcome codes (`int(np.max(outcomes))`; the
sweep is never empty in the code). -/
def listMaxNat (l : List Nat) : Nat := l.foldr max 0

/-- `np.argmax`: index of the first maximal element. -/
def np_argmax : List Nat → Nat
  | [] => 0
  | v :: rest => if v < listMaxNat rest then np_argmax rest + 1 else 0

/-- Lines 122–127: `peaks[np.argmax(properties["widths"])] - 1`, the yaw
index selected as representative (meaningful when some outcome is a success). -/
def selected_yaw_index (s : Nat) (outcomes : List Nat) : Nat :=
  ((find_peaks ((0 : Nat) :: ((outcomes.map fun o => if o = s then (1 : Nat) else 0) ++ [0]))).map
        Prod.fst).getD
      (np_argmax
        ((find_peaks
              ((0 : Nat) :: ((outcomes.map fun o => if o = s then (1 : Nat) else 0) ++ [0]))).map
          Prod.snd))
      0 -
    1

/-! ## Rotation-sweep evaluator (`evaluate_grasp_point`, lines 100–134)

The simulation is external: the recorded sweep results are the inputs
`outcomes` (label codes) and `widths`.  `R` is the grasp frame rotation and
`yawRot i` models `Rotation.from_euler("z", yaws[i])`, so
`Quat.mul R (yawRot i)` is `R * Rotation.from_euler("z", yaws[i])`.
`s` is the `Label.SUCCESS` code. -/

def evaluate_grasp_point (s : Nat) (pos : Vec3) (R : Quat) (yawRot : Nat → Quat)
    (outcomes : List Nat) (widths : List ℚ) : Grasp × Nat :=
  if ((outcomes.map fun o => if o = s then (1 : Nat) else 0).sum ≠ 0) then
    ({ pose := { rotation := Quat.mul R (yawRot (selected_yaw_index s outcomes)),
                 translation := pos },
       width := widths.getD (selected_yaw_index s outcomes) 0 },
     listMaxNat outcomes)
  else
    ({ pose := { rotation := Quat.id, translation := pos }, width := 0 },
     listMaxNat outcomes)

/-! ## Spec-side peak selection

These definitions follow the spec's words (§4.2 "Peak selection"), for the
refinement claim C1: build the binary success indicator, find all maximal
contiguous runs of successes, choose the run with the greatest width (first
one on ties), and take its midpoint index.  `runsAux` extracts maximal runs
`(start, length)`; the `Option Nat` state is an open run's start. -/

def runsAux : List Bool → Nat → Option Nat → List (Nat × Nat)
  | [], _, none => []
  | [], i, some a => [(a, i - a)]
  | b :: rest, i, none =>
      if b then runsAux rest (i + 1) (some i) else runsAux rest (i + 1) none
  | b :: rest, i, some a =>
      if b then runsAux rest (i + 1) (some a)
      else (a, i - a) :: runsAux rest (i + 1) none

/-- All maximal contiguous runs of `true`, as `(start index, length)`. -/
def spec_runs (ind : List Bool) : List (Nat × Nat) := runsAux ind 0 none

/-- The run with the greatest length; on a tie for maximum length, the run
with the lowest starting index. -/
def bestRun : List (Nat × Nat) → Option (Nat × Nat)
  | [] => none
  | r :: rl =>
      match bestRun rl with
      | none => some r
      | some r2 => if r.2 < r2.2 then some r2 else some r

/-- Midpoint index of a run `(start, length)`: `(start + last) / 2`. -/
def runMid (r : Nat × Nat) : Nat := (r.1 + (r.1 + r.2 - 1)) / 2

/-- Spec-side selected index: midpoint of the first widest success run. -/
def selectPeakSpec (ind : List Bool) : Option Nat :=
  (bestRun (spec_runs ind)).map runMid

/-! ## Scene-generation loop (`generate_samples`, lines 66–81)

The candidate stream `stream t` stands for the `t`-th draw of
`evaluate_grasp_point(sim, *sample_grasp_point(point_cloud, finger_depth))`.
The `while` loop is modelled with explicit fuel: `none` means the loop has
not yet reached the quota within `fuel` iterations (the code would keep
looping). -/

def sample_loop (s quota : Nat) (stream : Nat → Grasp × Nat) :
    Nat → Nat → List (Grasp × Nat) → Nat → Option (List (Grasp × Nat))
  | 0, _, pool, _ => if quota ≤ pool.length then some pool else none
  | fuel + 1, t, pool, negs =>
      if quota ≤ pool.length then some pool
      else
        if (stream t).2 = s ∨ negs < quota / 2 then
          sample_loop s quota stream fuel (t + 1) (pool ++ [stream t])
            (negs + if (stream t).2 = s then 0 else 1)
        else sample_loop s quota stream fuel (t + 1) pool negs

/-- The per-scene candidate pool: run the sampling loop from the empty pool. -/
def generate_pool (s quota : Nat) (stream : Nat → Grasp × Nat) (fuel : Nat) :
    Option (List (Grasp × Nat)) :=
  sample_loop s quota stream fuel 0 [] 0

/-- Number of negative-labelled entries of a pool. -/
def count_negatives (s : Nat) (pool : List (Grasp × Nat)) : Nat :=
  (pool.filter fun c => decide (c.2 ≠ s)).length

/-! ## Label volume builder (`store_sample`, lines 137–169) -/

/-- Line 138: `quality = 1.0 if label == Label.SUCCESS else 0.0`. -/
def label2quality (s label : Nat) : ℚ := if label = s then 1 else 0

/-- `np.round` rounds halves to the nearest even integer (banker's rounding);
`astype(np.int)` then truncates the already-integral value. -/
def round_half_even (q : ℚ) : ℤ :=
  if q - ⌊q⌋ < 1 / 2 then ⌊q⌋
  else if (1 : ℚ) / 2 < q - ⌊q⌋ then ⌊q⌋ + 1
  else if ⌊q⌋ % 2 = 0 then ⌊q⌋ else ⌊q⌋ + 1

/-- Modelled from the spec: `to_voxel_coordinates` lives in `vgn/grasp.py`,
which is not among the sources.  Per §4.4 it re-expresses the grasp in voxel
coordinates: the translation is scaled by the identity-world-to-voxel
scaling `1 / voxel_size`, with no orientation change, and the width channel
then stores "the grasp's gripper opening". -/
def to_voxel_coordinates (g : Grasp) (voxel_size : ℚ) : Grasp :=
  { pose := { rotation := g.pose.rotation,
              translation := Vec3.smul (1 / voxel_size) g.pose.translation },
    width := g.width }

/-- The rounded voxel index `np.round(grasp.pose.translation).astype(np.int)`. -/
def voxel_index (g : Grasp) : ℤ × ℤ × ℤ :=
  (round_half_even g.pose.translation.x,
   round_half_even g.pose.translation.y,
   round_half_even g.pose.translation.z)

/-- Line 161: `np.any(index < 0) or np.any(index > tsdf.resolution - 1)`. -/
def out_of_range (res : Nat) (idx : ℤ × ℤ × ℤ) : Prop :=
  idx.1 < 0 ∨ idx.2.1 < 0 ∨ idx.2.2 < 0 ∨
    (res : ℤ) - 1 < idx.1 ∨ (res : ℤ) - 1 < idx.2.1 ∨ (res : ℤ) - 1 < idx.2.2

instance (res : Nat) (idx : ℤ × ℤ × ℤ) : Decidable (out_of_range res idx) := by
  unfold out_of_range; infer_instance

/-- The five dense label volumes, as functions of the integer voxel index.
The source allocates them with `np.zeros` (`Volumes.init`). -/
structure Volumes where
  qual : ℤ → ℤ → ℤ → ℚ
  rot0 : ℤ → ℤ → ℤ → Quat
  rot1 : ℤ → ℤ → ℤ → Quat
  widthv : ℤ → ℤ → ℤ → ℚ
  mask : ℤ → ℤ → ℤ → ℚ

def Volumes.init : Volumes :=
  { qual := fun _ _ _ => 0
    rot0 := fun _ _ _ => ⟨0, 0, 0, 0⟩
    rot1 := fun _ _ _ => ⟨0, 0, 0, 0⟩
    widthv := fun _ _ _ => 0
    mask := fun _ _ _ => 0 }

/-- Single-cell array write `vol[i, j, k] = v`. -/
def upd3 {α : Type} (f : ℤ → ℤ → ℤ → α) (i j k : ℤ) (v : α) : ℤ → ℤ → ℤ → α :=
  fun a b c => if a = i ∧ b = j ∧ c = k then v else f a b c

/-- Loop body of `store_sample` (lines 157–169) for one `(grasp, label)`
pair: convert to voxel coordinates, round, bounds-check, and either skip or
write quality, both rotation channels, width, and mask at the cell. -/
def store_step (s res : Nat) (voxel_size : ℚ) (vols : Volumes) (g : Grasp)
    (label : Nat) : Volumes :=
  if out_of_range res (voxel_index (to_voxel_coordinates g voxel_size)) then vols
  else
    { qual := upd3 vols.qual (voxel_index (to_voxel_coordinates g voxel_size)).1
        (voxel_index (to_voxel_coordinates g voxel_size)).2.1
        (voxel_index (to_voxel_coordinates g voxel_size)).2.2 (label2quality s label)
      rot0 := upd3 vols.rot0 (voxel_index (to_voxel_coordinates g voxel_size)).1
        (voxel_index (to_voxel_coordinates g voxel_size)).2.1
        (voxel_index (to_voxel_coordinates g voxel_size)).2.2
        (to_voxel_coordinates g voxel_size).pose.rotation
      rot1 := upd3 vols.rot1 (voxel_index (to_voxel_coordinates g voxel_size)).1
        (voxel_index (to_voxel_coordinates g voxel_size)).2.1
        (voxel_index (to_voxel_coordinates g voxel_size)).2.2
        (Quat.mul (to_voxel_coordinates g voxel_size).pose.rotation Rz)
      widthv := upd3 vols.widthv (voxel_index (to_voxel_coordinates g voxel_size)).1
        (voxel_index (to_voxel_coordinates g voxel_size)).2.1
        (voxel_index (to_voxel_coordinates g voxel_size)).2.2
        (to_voxel_coordinates g voxel_size).width
      mask := upd3 vols.mask (voxel_index (to_voxel_coordinates g voxel_size)).1
        (voxel_index (to_voxel_coordinates g voxel_size)).2.1
        (voxel_index (to_voxel_coordinates g voxel_size)).2.2 1 }

/-- `store_sample`'s rasterization loop over the candidate pool. -/
def store_sample (s res : Nat) (voxel_size : ℚ) (pool : List (Grasp × Nat)) :
    Volumes :=
  pool.foldl (fun v p => store_step s res voxel_size v p.1 p.2) Volumes.init

/-! ## Concrete instances used by witnesses and counterexamples -/

/-- A throwaway grasp value for exercising the sampling loop. -/
def ex_grasp : Grasp := { pose := { rotation := Quat.id, translation := ⟨0, 0, 0⟩ }, width := 0 }

/-- A candidate stream: one negative draw, then successes (success code 1). -/
def ex_stream : Nat → Grasp × Nat := fun t => (ex_grasp, if t = 0 then 0 else 1)

/-- The pool `generate_pool 1 4 ex_stream 8` produces. -/
def ex_pool : List (Grasp × Nat) := [(ex_grasp, 0), (ex_grasp, 1), (ex_grasp, 1), (ex_grasp, 1)]

/-- An in-range grasp at the origin with width 1. -/
def ex_g1 : Grasp := { pose := { rotation := Quat.id, translation := ⟨0, 0, 0⟩ }, width := 1 }

/-- A second grasp rounding to the same voxel, with width 2. -/
def ex_g2 : Grasp := { pose := { rotation := Quat.id, translation := ⟨0, 0, 0⟩ }, width := 2 }

/-- A grasp whose voxel index is out of range (negative coordinate). -/
def ex_g_out : Grasp := { pose := { rotation := Quat.id, translation := ⟨-5, 0, 0⟩ }, width := 1 }

/-- A unit normal not parallel to canonical X (for the frame counterexample). -/
def ex_normal : Vec3 := ⟨3 / 5, 4 / 5, 0⟩

/-! ## Helper lemmas -/

theorem le_listMaxNat {l : List Nat} {o : Nat} (h : o ∈ l) : o ≤ listMaxNat l := by
  induction l with
  | nil => cases h
  | cons a rest ih =>
      rcases List.mem_cons.mp h with rfl | h
      · exact le_max_left _ _
      · exact le_trans (ih h) (le_max_right _ _)

theorem listMaxNat_mem {l : List Nat} (h : l ≠ []) : listMaxNat l ∈ l := by
  induction l with
  | nil => exact absurd rfl h
  | cons a rest ih =>
      cases rest with
      | nil => simp [listMaxNat]
      | cons b rest' =>
          rcases le_total a (listMaxNat (b :: rest')) with hle | hle
          · have : listMaxNat (a :: b :: rest') = listMaxNat (b :: rest') := by
              simpa [listMaxNat] using max_eq_right hle
            rw [this]
            exact List.mem_cons_of_mem _ (ih (by simp))
          · have : listMaxNat (a :: b :: rest') = a := by
              simpa [listMaxNat] using max_eq_left hle
            rw [this]
            exact List.mem_cons_self _ _

theorem success_sum_eq_zero_iff (s : Nat) (outcomes : List Nat) :
    (outcomes.map fun o => if o = s then (1 : Nat) else 0).sum = 0 ↔ s ∉ outcomes := by
  induction outcomes with
  | nil => simp
  | cons o rest ih =>
      by_cases ho : o = s
      · subst ho
        simp
      · simp [ho, ih, Ne.symm ho]

theorem evaluate_snd (s : Nat) (pos : Vec3) (R : Quat) (yawRot : Nat → Quat)
    (outcomes : List Nat) (widths : List ℚ) :
    (evaluate_grasp_point s pos R yawRot outcomes widths).2 = listMaxNat outcomes := by
  unfold evaluate_grasp_point
  split <;> rfl

/-! ## C8 — candidate sampler -/

/-- C8: `sample_grasp_point` returns the chosen vertex displaced along its
normal by exactly `finger_depth - grasp_depth`, together with that vertex's
normal; when the drawn `grasp_depth` lies in
`[-0.2·finger_depth, 1.2·finger_depth]`, so does the displacement. -/
theorem c8_sample_grasp_point (points normals : List Vec3) (fd gd : ℚ) (idx : Nat)
    (p n : Vec3) (hp : points[idx]? = some p) (hn : normals[idx]? = some n)
    (h1 : -(1 / 5 : ℚ) * fd ≤ gd) (h2 : gd ≤ (1 + 1 / 5 : ℚ) * fd) :
    sample_grasp_point points normals fd gd idx =
        some (Vec3.add p (Vec3.smul (fd - gd) n), n)
      ∧ -(1 / 5 : ℚ) * fd ≤ fd - gd ∧ fd - gd ≤ (1 + 1 / 5 : ℚ) * fd := by
  refine ⟨?_, by linarith, by linarith⟩
  simp [sample_grasp_point, hp, hn]

theorem c8_sample_grasp_point_witness :
    sample_grasp_point [(⟨0, 0, 0⟩ : Vec3)] [(⟨0, 0, 1⟩ : Vec3)] 1 (1 / 2) 0 =
        some (Vec3.add ⟨0, 0, 0⟩ (Vec3.smul (1 - 1 / 2) ⟨0, 0, 1⟩), ⟨0, 0, 1⟩)
      ∧ -(1 / 5 : ℚ) * 1 ≤ 1 - 1 / 2 ∧ (1 : ℚ) - 1 / 2 ≤ (1 + 1 / 5 : ℚ) * 1 :=
  c8_sample_grasp_point [⟨0, 0, 0⟩] [⟨0, 0, 1⟩] 1 (1 / 2) 0 ⟨0, 0, 0⟩ ⟨0, 0, 1⟩
    rfl rfl (by norm_num) (by norm_num)

/-! ### Concrete voxel-index computations (used to discharge witness hypotheses) -/

theorem vox_ex_g1 : voxel_index (to_voxel_coordinates ex_g1 1) = (0, 0, 0) := by
  norm_num [voxel_index, to_voxel_coordinates, Vec3.smul, ex_g1, round_half_even,
    Int.floor_zero]

theorem vox_ex_g2 : voxel_index (to_voxel_coordinates ex_g2 1) = (0, 0, 0) := by
  norm_num [voxel_index, to_voxel_coordinates, Vec3.smul, ex_g2, round_half_even,
    Int.floor_zero]

theorem vox_ex_g_out : voxel_index (to_voxel_coordinates ex_g_out 1) = (-5, 0, 0) := by
  norm_num [voxel_index, to_voxel_coordinates, Vec3.smul, ex_g_out, round_half_even,
    Int.floor_zero]

theorem in_range_origin : ¬ out_of_range 40 ((0, 0, 0) : ℤ × ℤ × ℤ) := by decide

theorem out_of_range_ex_g_out :
    out_of_range 40 (voxel_index (to_voxel_coordinates ex_g_out 1)) := by
  rw [vox_ex_g_out]
  decide

/-! ## C3 — the Label is the maximum outcome of the sweep -/

/-- C3: the Label returned by `evaluate_grasp_point` is the maximum-valued
outcome observed across the sweep (it is attained and bounds every outcome),
and — with success the maximal-coded variant — it equals the success code iff
some yaw's outcome is the success variant. -/
theorem c3_label_is_max (s : Nat) (pos : Vec3) (R : Quat) (yawRot : Nat → Quat)
    (outcomes : List Nat) (widths : List ℚ) (hne : outcomes ≠ [])
    (hle : ∀ o ∈ outcomes, o ≤ s) :
    (evaluate_grasp_point s pos R yawRot outcomes widths).2 ∈ outcomes
    ∧ (∀ o ∈ outcomes, o ≤ (evaluate_grasp_point s pos R yawRot outcomes widths).2)
    ∧ ((evaluate_grasp_point s pos R yawRot outcomes widths).2 = s ↔ s ∈ outcomes) := by
  rw [evaluate_snd]
  refine ⟨listMaxNat_mem hne, fun o ho => le_listMaxNat ho, ?_, ?_⟩
  · intro hmax
    rw [← hmax]
    exact listMaxNat_mem hne
  · intro hs
    exact le_antisymm (hle _ (listMaxNat_mem hne)) (le_listMaxNat hs)

theorem c3_label_is_max_witness :
    (evaluate_grasp_point 3 ⟨0, 0, 0⟩ Quat.id (fun _ => Quat.id) [0, 3, 2] []).2 ∈ [0, 3, 2]
    ∧ (∀ o ∈ [0, 3, 2], o ≤ (evaluate_grasp_point 3 ⟨0, 0, 0⟩ Quat.id (fun _ => Quat.id) [0, 3, 2] []).2)
    ∧ ((evaluate_grasp_point 3 ⟨0, 0, 0⟩ Quat.id (fun _ => Quat.id) [0, 3, 2] []).2 = 3 ↔ 3 ∈ [0, 3, 2]) :=
  c3_label_is_max 3 ⟨0, 0, 0⟩ Quat.id (fun _ => Quat.id) [0, 3, 2] [] (by decide)
    (by decide)

/-! ## C4 — degenerate all-failure sweep -/

/-- C4 counterexample: with two distinct failure codes (spec §3: failure
modes are distinct variants below the success code) the returned Label is
`int(np.max(outcomes))`, not the first yaw's outcome: for outcomes `[0, 2]`
with success code 3 the Label is 2 while the first yaw's outcome is 0. -/
theorem c4_counterexample :
    (evaluate_grasp_point 3 ⟨0, 0, 0⟩ Quat.id (fun _ => Quat.id) [0, 2] []).2 ≠
      List.headD [0, 2] 0 := by
  decide

/-- C4 as amended: if no yaw succeeds, the returned Grasp has the identity
rotation at the raw position with width 0, and the Label is the
maximum-valued (failure) outcome across the sweep — which is the first yaw's
outcome only when the first yaw attains that maximum. -/
theorem c4_degenerate_amended (s : Nat) (pos : Vec3) (R : Quat) (yawRot : Nat → Quat)
    (outcomes : List Nat) (widths : List ℚ) (hne : outcomes ≠ [])
    (hnos : s ∉ outcomes) :
    (evaluate_grasp_point s pos R yawRot outcomes widths).1 =
        { pose := { rotation := Quat.id, translation := pos }, width := 0 }
    ∧ (evaluate_grasp_point s pos R yawRot outcomes widths).2 ∈ outcomes
    ∧ ∀ o ∈ outcomes, o ≤ (evaluate_grasp_point s pos R yawRot outcomes widths).2 := by
  have hz : (outcomes.map fun o => if o = s then (1 : Nat) else 0).sum = 0 :=
    (success_sum_eq_zero_iff s outcomes).mpr hnos
  unfold evaluate_grasp_point
  rw [if_neg (not_not_intro hz)]
  exact ⟨rfl, listMaxNat_mem hne, fun o ho => le_listMaxNat ho⟩

theorem c4_degenerate_amended_witness :
    (evaluate_grasp_point 3 ⟨0, 0, 0⟩ Quat.id (fun _ => Quat.id) [0, 2] []).1 =
        { pose := { rotation := Quat.id, translation := ⟨0, 0, 0⟩ }, width := 0 }
    ∧ (evaluate_grasp_point 3 ⟨0, 0, 0⟩ Quat.id (fun _ => Quat.id) [0, 2] []).2 ∈ [0, 2]
    ∧ ∀ o ∈ [0, 2], o ≤ (evaluate_grasp_point 3 ⟨0, 0, 0⟩ Quat.id (fun _ => Quat.id) [0, 2] []).2 :=
  c4_degenerate_amended 3 ⟨0, 0, 0⟩ Quat.id (fun _ => Quat.id) [0, 2] [] (by decide)
    (by decide)

/-! ## C2 — candidate-pool quota and class balance -/

theorem count_negatives_append (s : Nat) (pool : List (Grasp × Nat)) (c : Grasp × Nat) :
    count_negatives s (pool ++ [c]) =
      count_negatives s pool + if c.2 = s then 0 else 1 := by
  by_cases hcs : c.2 = s <;> simp [count_negatives, List.filter_append, hcs]

theorem sample_loop_sound (s quota : Nat) (stream : Nat → Grasp × Nat) :
    ∀ (fuel t : Nat) (pool : List (Grasp × Nat)) (negs : Nat) (P : List (Grasp × Nat)),
      negs = count_negatives s pool → negs ≤ quota / 2 → pool.length ≤ quota →
      sample_loop s quota stream fuel t pool negs = some P →
      P.length = quota ∧ count_negatives s P ≤ quota / 2 := by
  intro fuel
  induction fuel with
  | zero =>
      intro t pool negs P h1 h2 h3 hrun
      unfold sample_loop at hrun
      by_cases hq : quota ≤ pool.length
      · rw [if_pos hq] at hrun
        cases hrun
        exact ⟨le_antisymm h3 hq, h1 ▸ h2⟩
      · rw [if_neg hq] at hrun
        cases hrun
  | succ fuel ih =>
      intro t pool negs P h1 h2 h3 hrun
      unfold sample_loop at hrun
      by_cases hq : quota ≤ pool.length
      · rw [if_pos hq] at hrun
        cases hrun
        exact ⟨le_antisymm h3 hq, h1 ▸ h2⟩
      · rw [if_neg hq] at hrun
        have hlt : pool.length < quota := Nat.lt_of_not_le hq
        by_cases hacc : (stream t).2 = s ∨ negs < quota / 2
        · rw [if_pos hacc] at hrun
          refine ih (t + 1) (pool ++ [stream t]) _ P ?_ ?_ ?_ hrun
          · rw [count_negatives_append, h1]
          · by_cases hcs : (stream t).2 = s
            · simpa [hcs] using h2
            · rcases hacc with hacc | hacc
              · exact absurd hacc hcs
              · simpa [hcs] using hacc
          · simpa using hlt
        · rw [if_neg hacc] at hrun
          exact ih (t + 1) pool negs P h1 h2 h3 hrun

/-- C2: whenever the sampling loop finishes a scene (hands a pool to the
serializer), the pool holds exactly `num_grasps_per_scene` pairs, of which
at most `num_grasps_per_scene / 2` are negative-labelled: a negative
candidate is appended only while the running negative count is below half
the quota, and a success-labelled candidate is always appended. -/
theorem c2_pool_invariants (s quota : Nat) (stream : Nat → Grasp × Nat) (fuel : Nat)
    (P : List (Grasp × Nat)) (h : generate_pool s quota stream fuel = some P) :
    P.length = quota ∧ count_negatives s P ≤ quota / 2 :=
  sample_loop_sound s quota stream fuel 0 [] 0 P (by simp [count_negatives])
    (Nat.zero_le _) (Nat.zero_le _) h

theorem c2_pool_invariants_witness :
    generate_pool 1 4 ex_stream 8 = some ex_pool
    ∧ (ex_pool.length = 4 ∧ count_negatives 1 ex_pool ≤ 4 / 2) :=
  ⟨by decide, c2_pool_invariants 1 4 ex_stream 8 ex_pool (by decide)⟩

/-! ## C5 — symmetric rotation channel -/

/-- C5: the rotation-symmetric channel written by `store_sample` is the
grasp orientation composed with the 180° rotation about Z (as a quaternion),
and composing with that rotation twice negates the quaternion — the same
rotation up to quaternion sign — while preserving the quaternion norm
(`Rz` itself being a unit quaternion). -/
theorem c5_symmetric_rotation (s res : Nat) (vsize : ℚ) (vols : Volumes) (g : Grasp)
    (label : Nat) (i j k : ℤ) (q : Quat)
    (hidx : voxel_index (to_voxel_coordinates g vsize) = (i, j, k))
    (hin : ¬ out_of_range res (i, j, k)) :
    (store_step s res vsize vols g label).rot1 i j k = Quat.mul g.pose.rotation Rz
    ∧ Quat.mul (Quat.mul q Rz) Rz = Quat.neg q
    ∧ Quat.normSq (Quat.mul q Rz) = Quat.normSq q
    ∧ Quat.normSq Rz = 1 := by
  refine ⟨?_, ?_, ?_, by norm_num [Quat.normSq, Rz]⟩
  · unfold store_step
    rw [hidx, if_neg hin]
    simp [upd3, to_voxel_coordinates]
  · cases q
    simp only [Quat.mul, Quat.neg, Rz, Quat.mk.injEq]
    exact ⟨by ring, by ring, by ring, by ring⟩
  · cases q
    simp only [Quat.mul, Quat.normSq, Rz]
    ring

theorem c5_symmetric_rotation_witness :
    (store_step 1 40 1 Volumes.init ex_g1 0).rot1 0 0 0 = Quat.mul ex_g1.pose.rotation Rz
    ∧ Quat.mul (Quat.mul ⟨1, 0, 0, 0⟩ Rz) Rz = Quat.neg ⟨1, 0, 0, 0⟩
    ∧ Quat.normSq (Quat.mul ⟨1, 0, 0, 0⟩ Rz) = Quat.normSq ⟨1, 0, 0, 0⟩
    ∧ Quat.normSq Rz = 1 :=
  c5_symmetric_rotation 1 40 1 Volumes.init ex_g1 0 0 0 0 ⟨1, 0, 0, 0⟩ vox_ex_g1
    in_range_origin

/-! ## C6 — out-of-range candidates are silently dropped -/

/-- C6: a pair whose rounded voxel index has a coordinate outside
`[0, resolution-1]` contributes nothing to the rasterized volumes — the
serializer's result on a pool containing it equals the result on the pool
without it (so every cell of every volume, the mask included, is unchanged),
while the pair still occupies its slot of the quota-length pool and is not
re-sampled. -/
theorem c6_out_of_range_dropped (s res : Nat) (vsize : ℚ)
    (pool1 pool2 : List (Grasp × Nat)) (g : Grasp) (label : Nat)
    (h : out_of_range res (voxel_index (to_voxel_coordinates g vsize))) :
    store_sample s res vsize (pool1 ++ (g, label) :: pool2) =
      store_sample s res vsize (pool1 ++ pool2) := by
  unfold store_sample
  rw [List.foldl_append, List.foldl_append, List.foldl_cons]
  congr 1
  show store_step s res vsize _ g label = _
  unfold store_step
  rw [if_pos h]

theorem c6_out_of_range_dropped_witness :
    store_sample 1 40 1 ([] ++ (ex_g_out, 0) :: [(ex_g1, 1)]) =
      store_sample 1 40 1 ([] ++ [(ex_g1, 1)]) :=
  c6_out_of_range_dropped 1 40 1 [] [(ex_g1, 1)] ex_g_out 0 out_of_range_ex_g_out

/-! ## C7 — voxel rasterization round-trip -/

theorem upd3_same {α : Type} (f : ℤ → ℤ → ℤ → α) (i j k : ℤ) (v : α) :
    upd3 f i j k v i j k = v := by
  simp [upd3]

theorem upd3_other {α : Type} (f : ℤ → ℤ → ℤ → α) (m : ℤ × ℤ × ℤ) (v : α) (i j k : ℤ)
    (h : m ≠ (i, j, k)) : upd3 f m.1 m.2.1 m.2.2 v i j k = f i j k := by
  unfold upd3
  rw [if_neg]
  rintro ⟨h1, h2, h3⟩
  exact h (by rw [h1, h2, h3])

/-- An in-range pair writes its five values at its rounded voxel index. -/
theorem store_step_write (s res : Nat) (vsize : ℚ) (vols : Volumes) (g : Grasp)
    (label : Nat) (i j k : ℤ)
    (hidx : voxel_index (to_voxel_coordinates g vsize) = (i, j, k))
    (hin : ¬ out_of_range res (i, j, k)) :
    (store_step s res vsize vols g label).qual i j k = label2quality s label
    ∧ (store_step s res vsize vols g label).rot0 i j k = g.pose.rotation
    ∧ (store_step s res vsize vols g label).rot1 i j k = Quat.mul g.pose.rotation Rz
    ∧ (store_step s res vsize vols g label).widthv i j k = g.width
    ∧ (store_step s res vsize vols g label).mask i j k = 1 := by
  unfold store_step
  rw [hidx, if_neg hin]
  exact ⟨upd3_same _ i j k _, upd3_same _ i j k _, upd3_same _ i j k _,
    upd3_same _ i j k _, upd3_same _ i j k _⟩

/-- A pair rounding to a different cell (or out of range) leaves a cell alone. -/
theorem store_step_other (s res : Nat) (vsize : ℚ) (vols : Volumes) (g : Grasp)
    (label : Nat) (i j k : ℤ)
    (h : voxel_index (to_voxel_coordinates g vsize) ≠ (i, j, k)) :
    (store_step s res vsize vols g label).qual i j k = vols.qual i j k
    ∧ (store_step s res vsize vols g label).rot0 i j k = vols.rot0 i j k
    ∧ (store_step s res vsize vols g label).rot1 i j k = vols.rot1 i j k
    ∧ (store_step s res vsize vols g label).widthv i j k = vols.widthv i j k
    ∧ (store_step s res vsize vols g label).mask i j k = vols.mask i j k := by
  unfold store_step
  split
  · exact ⟨rfl, rfl, rfl, rfl, rfl⟩
  · exact ⟨upd3_other _ _ _ i j k h, upd3_other _ _ _ i j k h, upd3_other _ _ _ i j k h,
      upd3_other _ _ _ i j k h, upd3_other _ _ _ i j k h⟩

/-- Folding a pool whose pairs all round elsewhere preserves a cell. -/
theorem store_fold_preserve (s res : Nat) (vsize : ℚ) (i j k : ℤ) :
    ∀ (pool : List (Grasp × Nat)) (vols : Volumes),
      (∀ p ∈ pool, voxel_index (to_voxel_coordinates p.1 vsize) ≠ (i, j, k)) →
      (pool.foldl (fun v p => store_step s res vsize v p.1 p.2) vols).qual i j k = vols.qual i j k
      ∧ (pool.foldl (fun v p => store_step s res vsize v p.1 p.2) vols).rot0 i j k = vols.rot0 i j k
      ∧ (pool.foldl (fun v p => store_step s res vsize v p.1 p.2) vols).rot1 i j k = vols.rot1 i j k
      ∧ (pool.foldl (fun v p => store_step s res vsize v p.1 p.2) vols).widthv i j k = vols.widthv i j k
      ∧ (pool.foldl (fun v p => store_step s res vsize v p.1 p.2) vols).mask i j k = vols.mask i j k := by
  intro pool
  induction pool with
  | nil => intro vols _; exact ⟨rfl, rfl, rfl, rfl, rfl⟩
  | cons p rest ih =>
      intro vols hne
      rw [List.foldl_cons]
      obtain ⟨f1, f2, f3, f4, f5⟩ :=
        ih (store_step s res vsize vols p.1 p.2)
          (fun q hq => hne q (List.mem_cons_of_mem _ hq))
      obtain ⟨g1, g2, g3, g4, g5⟩ :=
        store_step_other s res vsize vols p.1 p.2 i j k (hne p (List.mem_cons_self _ _))
      exact ⟨f1.trans g1, f2.trans g2, f3.trans g3, f4.trans g4, f5.trans g5⟩

/-- C7 counterexample: with two pairs rounding to the same in-range cell the
later write overwrites the earlier, so the persisted width at the first
pair's index is not the first pair's width — the claim's universal
round-trip fails on pools with voxel collisions. -/
theorem c7_counterexample :
    voxel_index (to_voxel_coordinates ex_g1 1) = (0, 0, 0)
    ∧ ¬ out_of_range 40 (voxel_index (to_voxel_coordinates ex_g1 1))
    ∧ (store_sample 1 40 1 [(ex_g1, 0), (ex_g2, 0)]).widthv 0 0 0 ≠
        (to_voxel_coordinates ex_g1 1).width := by
  refine ⟨vox_ex_g1, by rw [vox_ex_g1]; exact in_range_origin, ?_⟩
  have hv :
      (store_step 1 40 1 (store_step 1 40 1 Volumes.init ex_g1 0) ex_g2 0).widthv 0 0 0 =
        ex_g2.width :=
    (store_step_write 1 40 1 _ ex_g2 0 0 0 0 vox_ex_g2 in_range_origin).2.2.2.1
  unfold store_sample
  rw [List.foldl_cons, List.foldl_cons, List.foldl_nil, hv]
  norm_num [ex_g1, ex_g2, to_voxel_coordinates]

/-- C7 as amended: a pair whose translation rounds to an in-range index
`(i, j, k)` is recoverable from the persisted volumes at exactly that index —
mask 1.0, quality `1.0` iff success, width the gripper opening, and the
primary rotation channel the grasp's quaternion — provided no later pair of
the pool rounds to the same cell (later writes overwrite earlier ones); and
a sole out-of-range grasp leaves mask 0 everywhere. -/
theorem c7_roundtrip_amended (s res : Nat) (vsize : ℚ)
    (pool1 pool2 : List (Grasp × Nat)) (g : Grasp) (label : Nat) (i j k : ℤ)
    (g' : Grasp) (l' : Nat) (a b c : ℤ)
    (hidx : voxel_index (to_voxel_coordinates g vsize) = (i, j, k))
    (hin : ¬ out_of_range res (i, j, k))
    (hlater : ∀ p ∈ pool2, voxel_index (to_voxel_coordinates p.1 vsize) ≠ (i, j, k))
    (hout : out_of_range res (voxel_index (to_voxel_coordinates g' vsize))) :
    (store_sample s res vsize (pool1 ++ (g, label) :: pool2)).mask i j k = 1
    ∧ (store_sample s res vsize (pool1 ++ (g, label) :: pool2)).qual i j k =
        label2quality s label
    ∧ (store_sample s res vsize (pool1 ++ (g, label) :: pool2)).widthv i j k = g.width
    ∧ (store_sample s res vsize (pool1 ++ (g, label) :: pool2)).rot0 i j k =
        g.pose.rotation
    ∧ (store_sample s res vsize [(g', l')]).mask a b c = 0 := by
  have hlast : (store_sample s res vsize [(g', l')]).mask a b c = 0 := by
    unfold store_sample
    rw [List.foldl_cons, List.foldl_nil]
    unfold store_step
    rw [if_pos hout]
    simp [Volumes.init]
  unfold store_sample
  rw [List.foldl_append, List.foldl_cons]
  obtain ⟨w1, w2, w3, w4, w5⟩ :=
    store_step_write s res vsize
      (List.foldl (fun v p => store_step s res vsize v p.1 p.2) Volumes.init pool1)
      g label i j k hidx hin
  obtain ⟨p1, p2, p3, p4, p5⟩ :=
    store_fold_preserve s res vsize i j k pool2
      (store_step s res vsize
        (List.foldl (fun v p => store_step s res vsize v p.1 p.2) Volumes.init pool1)
        g label) hlater
  exact ⟨p5.trans w5, p1.trans w1, p4.trans w4, p2.trans w2, hlast⟩

theorem c7_roundtrip_amended_witness :
    (store_sample 1 40 1 ([] ++ (ex_g1, 1) :: [])).mask 0 0 0 = 1
    ∧ (store_sample 1 40 1 ([] ++ (ex_g1, 1) :: [])).qual 0 0 0 = label2quality 1 1
    ∧ (store_sample 1 40 1 ([] ++ (ex_g1, 1) :: [])).widthv 0 0 0 = ex_g1.width
    ∧ (store_sample 1 40 1 ([] ++ (ex_g1, 1) :: [])).rot0 0 0 0 = ex_g1.pose.rotation
    ∧ (store_sample 1 40 1 [(ex_g_out, 0)]).mask 5 5 5 = 0 :=
  c7_roundtrip_amended 1 40 1 [] [] ex_g1 1 0 0 0 ex_g_out 0 5 5 5 vox_ex_g1
    in_range_origin (by simp) out_of_range_ex_g_out

/-! ## C9 — grasp frame construction -/

theorem dot_cross_self_left (u v : Vec3) : Vec3.dot (Vec3.cross u v) u = 0 := by
  cases u; cases v
  simp only [Vec3.dot, Vec3.cross]
  ring

theorem dot_cross_self_right (u v : Vec3) : Vec3.dot (Vec3.cross u v) v = 0 := by
  cases u; cases v
  simp only [Vec3.dot, Vec3.cross]
  ring

/-- Lagrange's identity for the cross product. -/
theorem normSq_cross (u v : Vec3) :
    Vec3.normSq (Vec3.cross u v) = Vec3.normSq u * Vec3.normSq v - Vec3.dot u v ^ 2 := by
  cases u; cases v
  simp only [Vec3.normSq, Vec3.dot, Vec3.cross]
  ring

theorem vec3_normSq_nonneg (v : Vec3) : 0 ≤ Vec3.normSq v := by
  obtain ⟨a, b, c⟩ := v
  simp only [Vec3.normSq, Vec3.dot]
  nlinarith [mul_self_nonneg a, mul_self_nonneg b, mul_self_nonneg c]

theorem normSq_neg_eq (v : Vec3) : Vec3.normSq (Vec3.neg v) = Vec3.normSq v := by
  cases v
  simp only [Vec3.normSq, Vec3.dot, Vec3.neg]
  ring

theorem normSq_frame_ref (normal : Vec3) : Vec3.normSq (frame_ref_axis normal) = 1 := by
  unfold frame_ref_axis
  split <;> norm_num [Vec3.normSq, Vec3.dot, e1, e2]

/-- The tolerance branch guarantees the chosen reference axis is never
parallel to the approach axis: the squared cosine stays below 1. -/
theorem frame_ref_not_parallel (normal : Vec3) (h : Vec3.normSq normal = 1) :
    Vec3.dot (Vec3.neg normal) (frame_ref_axis normal) ^ 2 < 1 := by
  obtain ⟨nx, ny, nz⟩ := normal
  simp only [Vec3.normSq, Vec3.dot] at h
  unfold frame_ref_axis
  by_cases hc : |(|Vec3.dot e1 (Vec3.neg ⟨nx, ny, nz⟩)|) - 1| ≤ frame_tol
  · rw [if_pos hc]
    simp only [Vec3.dot, Vec3.neg, e1, e2, frame_tol] at hc ⊢
    -- reference axis is e2; need ny² < 1 from |nx| close to 1
    have hx2 : nx ^ 2 ≤ 1 := by nlinarith [sq_nonneg ny, sq_nonneg nz]
    have hxabs : |1 * -nx + 0 * -ny + 0 * -nz| ≤ 1 := by
      rw [abs_le]
      constructor <;> nlinarith [sq_abs nx, abs_nonneg nx]
    have hclose : 1 - |1 * -nx + 0 * -ny + 0 * -nz| ≤ 10001 / 100000000 := by
      have := abs_of_nonpos (sub_nonpos.mpr hxabs)
      rw [this] at hc
      linarith
    have habs : (1 : ℚ) - 10001 / 100000000 ≤ |nx| := by
      have : |1 * -nx + 0 * -ny + 0 * -nz| = |nx| := by
        rw [show (1 : ℚ) * -nx + 0 * -ny + 0 * -nz = -nx by ring, abs_neg]
      linarith [this ▸ hclose]
    have hsq : ((1 : ℚ) - 10001 / 100000000) ^ 2 ≤ nx ^ 2 := by
      rw [← sq_abs nx]
      have h0 : (0 : ℚ) ≤ 1 - 10001 / 100000000 := by norm_num
      exact pow_le_pow_left h0 habs 2
    nlinarith [sq_nonneg nz, sq_nonneg ny]
  · rw [if_neg hc]
    simp only [Vec3.dot, Vec3.neg, e1, frame_tol] at hc ⊢
    -- reference axis is e1; need nx² < 1 from |nx| not close to 1
    have hx2 : nx ^ 2 ≤ 1 := by nlinarith [sq_nonneg ny, sq_nonneg nz]
    have hxabs : |1 * -nx + 0 * -ny + 0 * -nz| ≤ 1 := by
      rw [abs_le]
      constructor <;> nlinarith [sq_abs nx, abs_nonneg nx]
    have hfar : (10001 : ℚ) / 100000000 < 1 - |1 * -nx + 0 * -ny + 0 * -nz| := by
      have habs0 := abs_of_nonpos (sub_nonpos.mpr hxabs)
      rw [habs0] at hc
      linarith
    have habs : |nx| < 1 := by
      have : |1 * -nx + 0 * -ny + 0 * -nz| = |nx| := by
        rw [show (1 : ℚ) * -nx + 0 * -ny + 0 * -nz = -nx by ring, abs_neg]
      rw [this] at hfar
      linarith
    calc (-nx * 1 + -ny * 0 + -nz * 0) ^ 2 = |nx| ^ 2 := by rw [sq_abs]; ring
    _ < 1 := by nlinarith [abs_nonneg nx]

/-- C9 counterexample: the constructed frame is not orthonormal in general —
for the unit normal `(3/5, 4/5, 0)` the first (cross-product) column has
squared norm `16/25 ≠ 1`. -/
theorem c9_counterexample :
    Vec3.normSq ex_normal = 1 ∧ Vec3.normSq (grasp_frame ex_normal).1 ≠ 1 := by
  constructor
  · norm_num [ex_normal, Vec3.normSq, Vec3.dot]
  · norm_num [ex_normal, grasp_frame, frame_ref_axis, frame_tol, Vec3.normSq,
      Vec3.dot, Vec3.cross, Vec3.neg, e1, e2, abs]

/-- C9 as amended: for a unit surface normal the constructed columns
`(x, y, z)` are pairwise orthogonal and right-handed with unit approach axis
`z = -normal`, and the two cross-product columns share the squared norm
`1 - (x₀·z)²` — strictly positive thanks to the reference-axis fallback, and
equal to 1 (orthonormal frame) only when the chosen reference axis is
orthogonal to the approach axis. -/
theorem c9_frame_amended (normal : Vec3) (h : Vec3.normSq normal = 1) :
    Vec3.dot (grasp_frame normal).1 (grasp_frame normal).2.1 = 0
    ∧ Vec3.dot (grasp_frame normal).2.1 (grasp_frame normal).2.2 = 0
    ∧ Vec3.dot (grasp_frame normal).1 (grasp_frame normal).2.2 = 0
    ∧ Vec3.normSq (grasp_frame normal).2.2 = 1
    ∧ Vec3.normSq (grasp_frame normal).1 = Vec3.normSq (grasp_frame normal).2.1
    ∧ Vec3.normSq (grasp_frame normal).2.1 =
        1 - Vec3.dot (Vec3.neg normal) (frame_ref_axis normal) ^ 2
    ∧ 0 < Vec3.normSq (grasp_frame normal).2.1
    ∧ 0 < Vec3.dot (grasp_frame normal).1
        (Vec3.cross (grasp_frame normal).2.1 (grasp_frame normal).2.2) := by
  have hz : Vec3.normSq (Vec3.neg normal) = 1 := by rw [normSq_neg_eq]; exact h
  have hx0 : Vec3.normSq (frame_ref_axis normal) = 1 := normSq_frame_ref normal
  have hd : Vec3.dot (Vec3.neg normal) (frame_ref_axis normal) ^ 2 < 1 :=
    frame_ref_not_parallel normal h
  have hyz : Vec3.dot (Vec3.cross (Vec3.neg normal) (frame_ref_axis normal))
      (Vec3.neg normal) = 0 := dot_cross_self_left _ _
  have hy : Vec3.normSq (Vec3.cross (Vec3.neg normal) (frame_ref_axis normal)) =
      1 - Vec3.dot (Vec3.neg normal) (frame_ref_axis normal) ^ 2 := by
    rw [normSq_cross, hz, hx0]
    ring
  have hx : Vec3.normSq
      (Vec3.cross (Vec3.cross (Vec3.neg normal) (frame_ref_axis normal)) (Vec3.neg normal)) =
      Vec3.normSq (Vec3.cross (Vec3.neg normal) (frame_ref_axis normal)) := by
    rw [normSq_cross, hz, hyz]
    ring
  simp only [grasp_frame]
  refine ⟨dot_cross_self_left _ _, hyz, dot_cross_self_right _ _, hz, hx, hy, ?_, ?_⟩
  · rw [hy]
    linarith
  · show 0 < Vec3.normSq
      (Vec3.cross (Vec3.cross (Vec3.neg normal) (frame_ref_axis normal)) (Vec3.neg normal))
    rw [hx, hy]
    linarith

/-! ## C1 / C10 — peak selection machinery -/

/-- The scipy plateau scan on a 0-padded 0/1 signal emits exactly the
maximal runs of ones, with their midpoints and lengths. -/
theorem peaks_eq_runs (l : List Nat) (hbin : ∀ v ∈ l, v ≤ 1) :
    ∀ i : Nat,
      (peaksAux (l ++ [0]) 0 i none =
        (runsAux (l.map fun v => v == 1) i none).map (fun r => (runMid r, r.2)))
      ∧ ∀ a : Nat, a < i →
          peaksAux (l ++ [0]) 1 i (some a) =
            (runsAux (l.map fun v => v == 1) i (some a)).map (fun r => (runMid r, r.2)) := by
  induction l with
  | nil =>
      intro i
      constructor
      · simp [peaksAux, runsAux]
      · intro a ha
        have hL : peaksAux ([] ++ [0]) 1 i (some a) =
            [((a + (i - 1)) / 2, i - a)] := by
          simp [peaksAux]
        have hmid : (a + (i - 1)) / 2 = runMid (a, i - a) := by
          simp only [runMid]
          omega
        rw [hL, hmid]
        simp [runsAux]
  | cons v rest ih =>
      have hv : v = 0 ∨ v = 1 := by
        have := hbin v (List.mem_cons_self _ _)
        omega
      have hbin' : ∀ w ∈ rest, w ≤ 1 := fun w hw => hbin w (List.mem_cons_of_mem _ hw)
      intro i
      rcases hv with rfl | rfl
      · constructor
        · simpa [peaksAux, runsAux] using (ih hbin' (i + 1)).1
        · intro a ha
          have hL : peaksAux ((0 :: rest) ++ [0]) 1 i (some a) =
              ((a + (i - 1)) / 2, i - a) :: peaksAux (rest ++ [0]) 0 (i + 1) none := by
            simp [peaksAux]
          have hR : runsAux ((0 :: rest).map fun v => v == 1) i (some a) =
              (a, i - a) :: runsAux (rest.map fun v => v == 1) (i + 1) none := by
            simp [runsAux]
          have hmid : (a + (i - 1)) / 2 = runMid (a, i - a) := by
            simp only [runMid]
            omega
          rw [hL, hR, List.map_cons, (ih hbin' (i + 1)).1, hmid]
      · constructor
        · simpa [peaksAux, runsAux] using (ih hbin' (i + 1)).2 i (Nat.lt_succ_self i)
        · intro a ha
          simpa [peaksAux, runsAux] using (ih hbin' (i + 1)).2 a (Nat.lt_succ_of_lt ha)

/-- Shifting the starting index shifts every reported run start. -/
theorem runsAux_shift (l : List Bool) :
    ∀ (i : Nat) (st : Option Nat),
      runsAux l (i + 1) (st.map (· + 1)) =
        (runsAux l i st).map (fun r => (r.1 + 1, r.2)) := by
  induction l with
  | nil =>
      intro i st
      cases st with
      | none => simp [runsAux]
      | some a =>
          simp only [Option.map_some', runsAux, List.map_cons, List.map_nil]
          rw [show i + 1 - (a + 1) = i - a from by omega]
  | cons b rest ih =>
      intro i st
      cases st with
      | none =>
          cases b
          · simpa [runsAux] using ih (i + 1) none
          · simpa [runsAux] using ih (i + 1) (some i)
      | some a =>
          cases b
          · have htail := ih (i + 1) none
            simp only [Option.map_none'] at htail
            simp only [Option.map_some', runsAux, Bool.false_eq_true, if_false,
              List.map_cons]
            rw [htail, show i + 1 - (a + 1) = i - a from by omega]
          · simpa [runsAux] using ih (i + 1) (some a)

theorem bestRun_cons_none {p : Nat × Nat} {rl : List (Nat × Nat)}
    (h : bestRun rl = none) : bestRun (p :: rl) = some p := by
  rw [bestRun, h]

theorem bestRun_cons_some {p r2 : Nat × Nat} {rl : List (Nat × Nat)}
    (h : bestRun rl = some r2) :
    bestRun (p :: rl) = if p.2 < r2.2 then some r2 else some p := by
  rw [bestRun, h]

theorem bestRun_isSome :
    ∀ (rl : List (Nat × Nat)), rl ≠ [] → ∃ r, bestRun rl = some r := by
  intro rl
  induction rl with
  | nil => intro h; exact absurd rfl h
  | cons p rest ih =>
      intro _
      cases hrest : bestRun rest with
      | none => exact ⟨p, bestRun_cons_none hrest⟩
      | some r2 =>
          by_cases hlt : p.2 < r2.2
          · exact ⟨r2, by rw [bestRun_cons_some hrest, if_pos hlt]⟩
          · exact ⟨p, by rw [bestRun_cons_some hrest, if_neg hlt]⟩

theorem bestRun_mem :
    ∀ (rl : List (Nat × Nat)) (r : Nat × Nat), bestRun rl = some r → r ∈ rl := by
  intro rl
  induction rl with
  | nil => intro r h; simp [bestRun] at h
  | cons p rest ih =>
      intro r h
      cases hrest : bestRun rest with
      | none =>
          rw [bestRun_cons_none hrest] at h
          injection h with h2
          subst h2
          exact List.mem_cons_self _ _
      | some r2 =>
          rw [bestRun_cons_some hrest] at h
          by_cases hlt : p.2 < r2.2
          · rw [if_pos hlt] at h
            injection h with h2
            subst h2
            exact List.mem_cons_of_mem _ (ih r2 hrest)
          · rw [if_neg hlt] at h
            injection h with h2
            subst h2
            exact List.mem_cons_self _ _

/-- `bestRun` reports a run of maximal length. -/
theorem bestRun_val :
    ∀ (rl : List (Nat × Nat)) (r : Nat × Nat), bestRun rl = some r →
      r.2 = listMaxNat (rl.map Prod.snd) := by
  intro rl
  induction rl with
  | nil => intro r h; simp [bestRun] at h
  | cons p rest ih =>
      intro r h
      cases hrest : bestRun rest with
      | none =>
          rw [bestRun_cons_none hrest] at h
          injection h with h2
          subst h2
          cases rest with
          | nil => simp [listMaxNat]
          | cons q rest' => obtain ⟨r2, hr2⟩ := bestRun_isSome (q :: rest') (by simp)
                            rw [hr2] at hrest
                            cases hrest
      | some r2 =>
          have hval := ih r2 hrest
          rw [bestRun_cons_some hrest] at h
          by_cases hlt : p.2 < r2.2
          · rw [if_pos hlt] at h
            injection h with h2
            subst h2
            rw [List.map_cons,
              show listMaxNat (p.2 :: rest.map Prod.snd) =
                max p.2 (listMaxNat (rest.map Prod.snd)) from rfl, ← hval]
            omega
          · rw [if_neg hlt] at h
            injection h with h2
            subst h2
            rw [List.map_cons,
              show listMaxNat (p.2 :: rest.map Prod.snd) =
                max p.2 (listMaxNat (rest.map Prod.snd)) from rfl, ← hval]
            omega

theorem np_argmax_lt_length :
    ∀ (l : List Nat), l ≠ [] → np_argmax l < l.length := by
  intro l
  induction l with
  | nil => intro h; exact absurd rfl h
  | cons v rest ih =>
      intro _
      by_cases hv : v < listMaxNat rest
      · cases rest with
        | nil => simp [listMaxNat] at hv
        | cons w rest' =>
            rw [np_argmax, if_pos hv]
            have := ih (by simp)
            simpa using Nat.succ_lt_succ this
      · rw [np_argmax, if_neg hv]
        simp

/-- `np.argmax` over the run widths picks out exactly the first widest run. -/
theorem argmax_get_eq_bestRun :
    ∀ (rl : List (Nat × Nat)), rl ≠ [] →
      ∃ r, bestRun rl = some r ∧ rl.get? (np_argmax (rl.map Prod.snd)) = some r := by
  intro rl
  induction rl with
  | nil => intro h; exact absurd rfl h
  | cons p rest ih =>
      intro _
      cases hrest : rest with
      | nil =>
          refine ⟨p, by simp [bestRun], ?_⟩
          simp [np_argmax, listMaxNat]
      | cons q rest' =>
          subst hrest
          obtain ⟨r2, hr2, hg2⟩ := ih (by simp)
          have hval := bestRun_val _ r2 hr2
          by_cases hlt : p.2 < listMaxNat ((q :: rest').map Prod.snd)
          · have hlt2 : p.2 < r2.2 := by rw [hval]; exact hlt
            refine ⟨r2, ?_, ?_⟩
            · rw [bestRun_cons_some hr2, if_pos hlt2]
            · rw [List.map_cons, np_argmax, if_pos hlt]
              simpa using hg2
          · have hlt2 : ¬ p.2 < r2.2 := by rw [hval]; exact hlt
            refine ⟨p, ?_, ?_⟩
            · rw [bestRun_cons_some hr2, if_neg hlt2]
            · rw [List.map_cons, np_argmax, if_neg hlt]
              rfl

theorem runsAux_some_ne :
    ∀ (l : List Bool) (i a : Nat), runsAux l i (some a) ≠ [] := by
  intro l
  induction l with
  | nil => intro i a; simp [runsAux]
  | cons b rest ih =>
      intro i a
      cases b
      · simp [runsAux]
      · simpa [runsAux] using ih (i + 1) a

theorem runs_ne_of_true :
    ∀ (l : List Bool) (i : Nat), true ∈ l → runsAux l i none ≠ [] := by
  intro l
  induction l with
  | nil => intro i h; cases h
  | cons b rest ih =>
      intro i h
      cases b
      · have : true ∈ rest := by
          rcases List.mem_cons.mp h with h0 | h0
          · cases h0
          · exact h0
        simpa [runsAux] using ih (i + 1) this
      · simpa [runsAux] using runsAux_some_ne rest (i + 1) i

/-- Soundness of run extraction: every reported run has positive length,
ends within the list, and covers only `true` positions. -/
theorem runsAux_sound :
    ∀ (l : List Bool) (i : Nat) (st : Option Nat),
      (∀ a, st = some a → a < i) →
      ∀ r ∈ runsAux l i st,
        r.1 + r.2 ≤ i + l.length ∧ 1 ≤ r.2 ∧
          ((∃ a, st = some a ∧ r.1 = a ∧ i ≤ r.1 + r.2 ∧
              ∀ j, i ≤ j → j < r.1 + r.2 → l.getD (j - i) false = true)
           ∨ (i ≤ r.1 ∧ ∀ j, r.1 ≤ j → j < r.1 + r.2 → l.getD (j - i) false = true)) := by
  intro l
  induction l with
  | nil =>
      intro i st hst r hr
      cases st with
      | none => simp [runsAux] at hr
      | some a =>
          have ha : a < i := hst a rfl
          simp only [runsAux, List.mem_singleton] at hr
          subst hr
          refine ⟨by simp; omega, by simp; omega,
            Or.inl ⟨a, rfl, rfl, by simp; omega, ?_⟩⟩
          intro j hj1 hj2
          exact absurd hj2 (by simp; omega)
  | cons b rest ih =>
      intro i st hst r hr
      cases st with
      | none =>
          cases b
          · rw [show runsAux (false :: rest) i none = runsAux rest (i + 1) none by
              simp [runsAux]] at hr
            obtain ⟨hb1, hb2, hcase⟩ := ih (i + 1) none (by simp) r hr
            refine ⟨by simp at hb1 ⊢; omega, hb2, ?_⟩
            rcases hcase with ⟨a, hne, _⟩ | ⟨hge, hpos⟩
            · cases hne
            · right
              refine ⟨by omega, ?_⟩
              intro j hj1 hj2
              have hsh : j - i = (j - (i + 1)) + 1 := by omega
              rw [hsh, List.getD_cons_succ]
              exact hpos j hj1 hj2
          · rw [show runsAux (true :: rest) i none = runsAux rest (i + 1) (some i) by
              simp [runsAux]] at hr
            obtain ⟨hb1, hb2, hcase⟩ :=
              ih (i + 1) (some i) (by intro a ha; cases ha; omega) r hr
            refine ⟨by simp at hb1 ⊢; omega, hb2, ?_⟩
            right
            rcases hcase with ⟨a, hsome, hra, hile, hpos⟩ | ⟨hge, hpos⟩
            · cases hsome
              refine ⟨le_of_eq hra.symm, ?_⟩
              intro j hj1 hj2
              rcases Nat.eq_or_lt_of_le hj1 with heq | hlt
              · rw [hra] at heq
                rw [← heq]
                simp
              · have hsh : j - i = (j - (i + 1)) + 1 := by rw [hra] at hlt; omega
                rw [hsh, List.getD_cons_succ]
                exact hpos j (by rw [hra] at hlt; omega) hj2
            · refine ⟨by omega, ?_⟩
              intro j hj1 hj2
              have hsh : j - i = (j - (i + 1)) + 1 := by omega
              rw [hsh, List.getD_cons_succ]
              exact hpos j hj1 hj2
      | some a =>
          have ha : a < i := hst a rfl
          cases b
          · rw [show runsAux (false :: rest) i (some a) =
                (a, i - a) :: runsAux rest (i + 1) none by simp [runsAux]] at hr
            rcases List.mem_cons.mp hr with rfl | hr
            · refine ⟨by simp; omega, by simp; omega,
                Or.inl ⟨a, rfl, rfl, by simp; omega, ?_⟩⟩
              intro j hj1 hj2
              exact absurd hj2 (by simp; omega)
            · obtain ⟨hb1, hb2, hcase⟩ := ih (i + 1) none (by simp) r hr
              refine ⟨by simp at hb1 ⊢; omega, hb2, ?_⟩
              rcases hcase with ⟨a', hne, _⟩ | ⟨hge, hpos⟩
              · cases hne
              · right
                refine ⟨by omega, ?_⟩
                intro j hj1 hj2
                have hsh : j - i = (j - (i + 1)) + 1 := by omega
                rw [hsh, List.getD_cons_succ]
                exact hpos j hj1 hj2
          · rw [show runsAux (true :: rest) i (some a) = runsAux rest (i + 1) (some a) by
              simp [runsAux]] at hr
            obtain ⟨hb1, hb2, hcase⟩ :=
              ih (i + 1) (some a) (by intro a' h'; cases h'; omega) r hr
            refine ⟨by simp at hb1 ⊢; omega, hb2, ?_⟩
            rcases hcase with ⟨a', hsome, hra, hile, hpos⟩ | ⟨hge, hpos⟩
            · cases hsome
              left
              refine ⟨a, rfl, hra, by omega, ?_⟩
              intro j hj1 hj2
              rcases Nat.eq_or_lt_of_le hj1 with heq | hlt
              · rw [← heq]
                simp
              · have hsh : j - i = (j - (i + 1)) + 1 := by omega
                rw [hsh, List.getD_cons_succ]
                exact hpos j (by omega) hj2
            · right
              refine ⟨by omega, ?_⟩
              intro j hj1 hj2
              have hsh : j - i = (j - (i + 1)) + 1 := by omega
              rw [hsh, List.getD_cons_succ]
              exact hpos j (by omega) hj2

theorem c9_frame_amended_witness :
    Vec3.dot (grasp_frame ex_normal).1 (grasp_frame ex_normal).2.1 = 0
    ∧ Vec3.dot (grasp_frame ex_normal).2.1 (grasp_frame ex_normal).2.2 = 0
    ∧ Vec3.dot (grasp_frame ex_normal).1 (grasp_frame ex_normal).2.2 = 0
    ∧ Vec3.normSq (grasp_frame ex_normal).2.2 = 1
    ∧ Vec3.normSq (grasp_frame ex_normal).1 = Vec3.normSq (grasp_frame ex_normal).2.1
    ∧ Vec3.normSq (grasp_frame ex_normal).2.1 =
        1 - Vec3.dot (Vec3.neg ex_normal) (frame_ref_axis ex_normal) ^ 2
    ∧ 0 < Vec3.normSq (grasp_frame ex_normal).2.1
    ∧ 0 < Vec3.dot (grasp_frame ex_normal).1
        (Vec3.cross (grasp_frame ex_normal).2.1 (grasp_frame ex_normal).2.2) :=
  c9_frame_amended ex_normal (by norm_num [ex_normal, Vec3.normSq, Vec3.dot])

theorem successes_le_one (s : Nat) (outcomes : List Nat) :
    ∀ v ∈ (outcomes.map fun o => if o = s then (1 : Nat) else 0), v ≤ 1 := by
  intro v hv
  rw [List.mem_map] at hv
  obtain ⟨o, _, rfl⟩ := hv
  split <;> omega

theorem indicator_eq (s : Nat) (outcomes : List Nat) :
    (outcomes.map fun o => if o = s then (1 : Nat) else 0).map (fun v => v == 1) =
      outcomes.map fun o => o == s := by
  induction outcomes with
  | nil => rfl
  | cons o rest ih => by_cases ho : o = s <;> simp [ho, ih]

/-- The peaks the evaluator computes on the padded indicator are exactly the
success runs, shifted by the padding offset. -/
theorem find_peaks_padded (s : Nat) (outcomes : List Nat) :
    find_peaks ((0 : Nat) :: ((outcomes.map fun o => if o = s then (1 : Nat) else 0) ++ [0])) =
      (runsAux (outcomes.map fun o => o == s) 0 none).map
        (fun r => (runMid (r.1 + 1, r.2), r.2)) := by
  have h1 : find_peaks
      ((0 : Nat) :: ((outcomes.map fun o => if o = s then (1 : Nat) else 0) ++ [0])) =
      peaksAux ((outcomes.map fun o => if o = s then (1 : Nat) else 0) ++ [0]) 0 1 none := rfl
  rw [h1, (peaks_eq_runs _ (successes_le_one s outcomes) 1).1, indicator_eq]
  have h2 : runsAux (outcomes.map fun o => o == s) 1 none =
      (runsAux (outcomes.map fun o => o == s) 0 none).map (fun r => (r.1 + 1, r.2)) := by
    have := runsAux_shift (outcomes.map fun o => o == s) 0 none
    simpa using this
  rw [h2, List.map_map]
  rfl

/-- The evaluator's selected yaw index realizes the spec-side description:
midpoint of the first widest run of successes. -/
theorem select_eq_spec (s : Nat) (outcomes : List Nat) (h : s ∈ outcomes) :
    selectPeakSpec (outcomes.map fun o => o == s) =
      some (selected_yaw_index s outcomes) := by
  have htrue : true ∈ (outcomes.map fun o => o == s) := by
    rw [List.mem_map]
    exact ⟨s, h, by simp⟩
  have hne : runsAux (outcomes.map fun o => o == s) 0 none ≠ [] :=
    runs_ne_of_true _ 0 htrue
  obtain ⟨r0, hbest, hget⟩ := argmax_get_eq_bestRun _ hne
  have hsel : selected_yaw_index s outcomes = runMid r0 := by
    unfold selected_yaw_index
    rw [find_peaks_padded, List.map_map, List.map_map]
    have hsnd : (Prod.snd ∘ fun r : Nat × Nat => (runMid (r.1 + 1, r.2), r.2)) =
        Prod.snd := rfl
    rw [hsnd]
    have hget2 : ((runsAux (outcomes.map fun o => o == s) 0 none).map
        (Prod.fst ∘ fun r : Nat × Nat => (runMid (r.1 + 1, r.2), r.2))).get?
        (np_argmax ((runsAux (outcomes.map fun o => o == s) 0 none).map Prod.snd)) =
        some (runMid (r0.1 + 1, r0.2)) := by
      rw [List.get?_map, hget]
      rfl
    rw [show ∀ (l : List Nat) (n : Nat), l.getD n 0 = (l.get? n).getD 0
      from fun _ _ => rfl, hget2]
    show runMid (r0.1 + 1, r0.2) - 1 = runMid r0
    simp only [runMid]
    omega
  rw [hsel]
  simp [selectPeakSpec, spec_runs, hbest]

/-- The spec-side selected index points inside the indicator and at a
success: a run's midpoint lies within the run. -/
theorem spec_select_success (ind : List Bool) (m : Nat)
    (h : selectPeakSpec ind = some m) : m < ind.length ∧ ind.getD m false = true := by
  unfold selectPeakSpec at h
  cases hbest : bestRun (spec_runs ind) with
  | none => rw [hbest] at h; cases h
  | some r0 =>
      rw [hbest] at h
      simp only [Option.map_some'] at h
      injection h with h
      obtain ⟨hb1, hb2, hcase⟩ :=
        runsAux_sound ind 0 none (by simp) r0 (bestRun_mem _ r0 hbest)
      rcases hcase with ⟨a, hne, _⟩ | ⟨_, hpos⟩
      · cases hne
      · have hm1 : r0.1 ≤ m := by
          rw [← h]
          simp only [runMid]
          omega
        have hm2 : m < r0.1 + r0.2 := by
          rw [← h]
          simp only [runMid]
          omega
        refine ⟨by simp at hb1; omega, ?_⟩
        have := hpos m hm1 hm2
        simpa using this

/-- C1: peak selection is deterministic and matches the spec's description —
the binary success indicator is padded with a failure sentinel at both ends,
all maximal contiguous runs of successes are found, the first widest run
wins, and the selected yaw index is the midpoint of that run; the evaluator's
chosen rotation and width are those of that index. -/
theorem c1_peak_selection (s : Nat) (pos : Vec3) (R : Quat) (yawRot : Nat → Quat)
    (outcomes : List Nat) (widths : List ℚ) (h : s ∈ outcomes) :
    selectPeakSpec (outcomes.map fun o => o == s) =
        some (selected_yaw_index s outcomes)
    ∧ (evaluate_grasp_point s pos R yawRot outcomes widths).1.pose.rotation =
        Quat.mul R (yawRot (selected_yaw_index s outcomes))
    ∧ (evaluate_grasp_point s pos R yawRot outcomes widths).1.width =
        widths.getD (selected_yaw_index s outcomes) 0 := by
  have hsum : (outcomes.map fun o => if o = s then (1 : Nat) else 0).sum ≠ 0 := by
    intro h0
    exact (success_sum_eq_zero_iff s outcomes).mp h0 h
  refine ⟨select_eq_spec s outcomes h, ?_, ?_⟩
  · unfold evaluate_grasp_point
    rw [if_pos hsum]
  · unfold evaluate_grasp_point
    rw [if_pos hsum]

theorem c1_peak_selection_witness :
    (selectPeakSpec ([0, 1, 1, 0, 1].map fun o => o == 1) =
        some (selected_yaw_index 1 [0, 1, 1, 0, 1])
      ∧ (evaluate_grasp_point 1 ⟨0, 0, 0⟩ Quat.id (fun _ => Quat.id) [0, 1, 1, 0, 1]
            ([2, 3, 5, 7, 11] : List ℚ)).1.pose.rotation =
          Quat.mul Quat.id ((fun _ => Quat.id) (selected_yaw_index 1 [0, 1, 1, 0, 1]))
      ∧ (evaluate_grasp_point 1 ⟨0, 0, 0⟩ Quat.id (fun _ => Quat.id) [0, 1, 1, 0, 1]
            ([2, 3, 5, 7, 11] : List ℚ)).1.width =
          ([2, 3, 5, 7, 11] : List ℚ).getD (selected_yaw_index 1 [0, 1, 1, 0, 1]) 0)
    ∧ selected_yaw_index 1 [0, 1, 1, 0, 1] = 1 :=
  ⟨c1_peak_selection 1 ⟨0, 0, 0⟩ Quat.id (fun _ => Quat.id) [0, 1, 1, 0, 1]
      ([2, 3, 5, 7, 11] : List ℚ) (by decide), by decide⟩

/-- C10: when some yaw succeeds, the selected yaw index lies inside the
sweep and its own outcome is the success variant (a run's midpoint lies
inside the run), so the returned width is one recorded at a successful
attempt and — with success the maximal outcome code — the returned Label
agrees with the selected yaw's own outcome. -/
theorem c10_selected_success (s : Nat) (pos : Vec3) (R : Quat) (yawRot : Nat → Quat)
    (outcomes : List Nat) (widths : List ℚ) (h : s ∈ outcomes)
    (hle : ∀ o ∈ outcomes, o ≤ s) (hlen : widths.length = outcomes.length) :
    selected_yaw_index s outcomes < outcomes.length
    ∧ outcomes.getD (selected_yaw_index s outcomes) 0 = s
    ∧ selected_yaw_index s outcomes < widths.length
    ∧ (evaluate_grasp_point s pos R yawRot outcomes widths).1.width =
        widths.getD (selected_yaw_index s outcomes) 0
    ∧ (evaluate_grasp_point s pos R yawRot outcomes widths).2 =
        outcomes.getD (selected_yaw_index s outcomes) 0 := by
  obtain ⟨hm1, hm2⟩ := spec_select_success _ _ (select_eq_spec s outcomes h)
  have hlt : selected_yaw_index s outcomes < outcomes.length := by
    simpa using hm1
  have hout : outcomes.getD (selected_yaw_index s outcomes) 0 = s := by
    rw [show ∀ (l : List Bool) (n : Nat), l.getD n false = (l.get? n).getD false
      from fun _ _ => rfl, List.get?_map] at hm2
    cases hq : outcomes.get? (selected_yaw_index s outcomes) with
    | none =>
        rw [hq] at hm2
        simp at hm2
    | some o =>
        rw [hq] at hm2
        simp only [Option.map_some', Option.getD_some] at hm2
        have ho : o = s := by simpa using hm2
        rw [show ∀ (l : List Nat) (n : Nat), l.getD n 0 = (l.get? n).getD 0
          from fun _ _ => rfl, hq]
        simpa using ho
  have hsum : (outcomes.map fun o => if o = s then (1 : Nat) else 0).sum ≠ 0 := by
    intro h0
    exact (success_sum_eq_zero_iff s outcomes).mp h0 h
  have hmax : listMaxNat outcomes = s :=
    le_antisymm (hle _ (listMaxNat_mem (List.ne_nil_of_mem h))) (le_listMaxNat h)
  refine ⟨hlt, hout, by omega, ?_, ?_⟩
  · unfold evaluate_grasp_point
    rw [if_pos hsum]
  · rw [evaluate_snd, hmax, hout]

theorem c10_selected_success_witness :
    selected_yaw_index 1 [0, 1, 1, 0, 1] < [0, 1, 1, 0, 1].length
    ∧ [0, 1, 1, 0, 1].getD (selected_yaw_index 1 [0, 1, 1, 0, 1]) 0 = 1
    ∧ selected_yaw_index 1 [0, 1, 1, 0, 1] < ([2, 3, 5, 7, 11] : List ℚ).length
    ∧ (evaluate_grasp_point 1 ⟨0, 0, 0⟩ Quat.id (fun _ => Quat.id) [0, 1, 1, 0, 1]
          ([2, 3, 5, 7, 11] : List ℚ)).1.width =
        ([2, 3, 5, 7, 11] : List ℚ).getD (selected_yaw_index 1 [0, 1, 1, 0, 1]) 0
    ∧ (evaluate_grasp_point 1 ⟨0, 0, 0⟩ Quat.id (fun _ => Quat.id) [0, 1, 1, 0, 1]
          ([2, 3, 5, 7, 11] : List ℚ)).2 =
        [0, 1, 1, 0, 1].getD (selected_yaw_index 1 [0, 1, 1, 0, 1]) 0 :=
  c10_selected_success 1 ⟨0, 0, 0⟩ Quat.id (fun _ => Quat.id) [0, 1, 1, 0, 1]
    ([2, 3, 5, 7, 11] : List ℚ) (by decide) (by decide) (by decide)
